import Mathlib

/-!
Shallow embedding of mirror.py, a script that mirrors branches between git
repositories.  External effects (the git executable, the network, the
filesystem, the randomness source) are modelled as oracles passed in as
function arguments; machine behaviour of CPython string methods is modelled
by executable functions on character lists.
-/

/-! ### Python string primitives -/

/-- Models Python str.split(sep) for a one-character separator: splits on every
occurrence of the separator, keeping empty fields, so the result is always
nonempty. -/
def splitOnChar (sep : Char) : List Char → List (List Char)
  | [] => [[]]
  | c :: cs =>
    let r := splitOnChar sep cs
    if c == sep then [] :: r
    else
      match r with
      | [] => [[c]]
      | g :: gs => (c :: g) :: gs

/-- The six characters Python str.strip() removes. -/
def pyIsSpace (c : Char) : Bool :=
  c == ' ' || c == '\t' || c == '\n' || c == '\r' || c == '\x0b' || c == '\x0c'

/-- Drops from both ends of a list every leading and trailing character
satisfying the predicate, as Python str.strip(chars) does. -/
def stripWhile (q : Char → Bool) (l : List Char) : List Char :=
  ((l.dropWhile q).reverse.dropWhile q).reverse

/-- Models Python str.strip() with no argument. -/
def pyStrip (l : List Char) : List Char := stripWhile pyIsSpace l

/-- Models Python str.splitlines() for LF-separated text (the form git
produces): a final newline terminates the last line instead of opening an
empty one. -/
def pySplitlines (cs : List Char) : List (List Char) :=
  let parts := splitOnChar '\n' cs
  match parts.getLast? with
  | some [] => parts.dropLast
  | _ => parts

/-- Python dict insertion on an association list: an existing key keeps its
position and gets the new value, a fresh key is appended. -/
def dictInsert {β : Type} : List (String × β) → String → β → List (String × β)
  | [], k, v => [(k, v)]
  | (k', v') :: rest, k, v =>
    if k' == k then (k, v) :: rest else (k', v') :: dictInsert rest k v

/-- Python dict.get on an association list. -/
def dictGet {β : Type} : List (String × β) → String → Option β
  | [], _ => none
  | (k', v) :: rest, k => if k' == k then some v else dictGet rest k

/-! ### Job model (the MirrorJob dataclass) -/

/-- The MirrorJob dataclass: one configured mirror task. -/
structure MirrorJob where
  name : String
  from_repo : String
  from_branch : String
  to_repo : String
  to_branch : String
deriving DecidableEq, Repr

/-! ### Remote head resolver (get_remote_heads) -/

/-- Exceptions of mirror.py that matter to control flow. -/
inductive PyExc where
  | timeoutExpired
  | valueError
  | calledProcessError
deriving DecidableEq, Repr

/-- Outcome of one invocation of git ls-remote, as seen through subprocess.run
with check=True: captured stdout on exit 0, CalledProcessError on a non-zero
exit, TimeoutExpired when the 60-unit deadline passes. -/
inductive LsRemoteResult where
  | ok (stdout : String)
  | nonzeroExit
  | timedOut
deriving DecidableEq, Repr

/-- A branch-name to commit-hash mapping, in dict insertion order. -/
abbrev Heads := List (String × String)

/-- The key computation of the parse loop: head.strip().removeprefix("refs/heads/"). -/
def headKey (headCs : List Char) : List Char :=
  let t := pyStrip headCs
  if t.take 11 = "refs/heads/".data then t.drop 11 else t

/-- One iteration of the parse loop of get_remote_heads:
heads[head.strip().removeprefix("refs/heads/")] = hash.strip(). -/
def insertHead (heads : Heads) (hashCs headCs : List Char) : Heads :=
  dictInsert heads (String.mk (headKey headCs)) (String.mk (pyStrip hashCs))

/-- The parse loop of get_remote_heads over the output lines.  A line that does
not split into exactly two tab-separated fields makes the tuple unpacking
raise ValueError, modelled as none. -/
def buildHeads : Heads → List (List Char) → Option Heads
  | acc, [] => some acc
  | acc, line :: rest =>
    match splitOnChar '\t' line with
    | [hashCs, headCs] => buildHeads (insertHead acc hashCs headCs) rest
    | _ => none

/-- The body of get_remote_heads for one actual invocation, before memoization:
runs git ls-remote --heads url (modelled by the oracle net), catches only
CalledProcessError (returning none), parses the output lines on success, and
lets TimeoutExpired and the parse ValueError escape as exceptions. -/
def resolveOnce (net : String → LsRemoteResult) (url : String) :
    Except PyExc (Option Heads) :=
  match net url with
  | .ok out =>
    match buildHeads [] (pySplitlines out.data) with
    | some heads => .ok (some heads)
    | none => .error .valueError
  | .nonzeroExit => .ok none
  | .timedOut => .error .timeoutExpired

/-- State of the functools.cache memoization on get_remote_heads, together
with the list of urls actually queried over the network, in order. -/
structure ResolverState where
  cache : List (String × Option Heads)
  queries : List String
deriving DecidableEq, Repr

/-- The memoized get_remote_heads: a cache hit answers without a network
query; a miss performs the query, and functools.cache records the returned
value but does not record a raised exception. -/
def get_remote_heads (net : String → LsRemoteResult) (s : ResolverState)
    (url : String) : Except PyExc (Option Heads) × ResolverState :=
  match dictGet s.cache url with
  | some v => (.ok v, s)
  | none =>
    match resolveOnce net url with
    | .ok v => (.ok v, ⟨s.cache ++ [(url, v)], s.queries ++ [url]⟩)
    | .error e => (.error e, ⟨s.cache, s.queries ++ [url]⟩)

/-- A sequence of get_remote_heads calls within one run.  A raised exception
is never caught at this boundary, so it aborts the sequence. -/
def runResolverCalls (net : String → LsRemoteResult) :
    List String → ResolverState →
    List (String × Except PyExc (Option Heads)) × ResolverState
  | [], s => ([], s)
  | url :: rest, s =>
    let (r, s1) := get_remote_heads net s url
    match r with
    | .error e => ([(url, .error e)], s1)
    | .ok v =>
      let (outs, s2) := runResolverCalls net rest s1
      ((url, .ok v) :: outs, s2)

/-! ### Sync necessity evaluator (should_sync_job) -/

/-- Models should_sync_job.  Within one run the functools.cache memoization and
a deterministic network make get_remote_heads a pure function of the url
(lemma get_remote_heads_consistent below), so the two resolver calls are
modelled by resolveOnce; a raised resolver exception propagates. -/
def should_sync_job (net : String → LsRemoteResult) (job : MirrorJob) :
    Except PyExc Bool :=
  match resolveOnce net job.from_repo with
  | .error e => .error e
  | .ok fromHeads =>
    match resolveOnce net job.to_repo with
    | .error e => .error e
    | .ok toHeads =>
      match fromHeads, toHeads with
      | some fh, some th =>
        match dictGet fh job.from_branch with
        | none => .ok false
        | some fromHash =>
          if some fromHash = dictGet th job.to_branch then .ok false
          else .ok true
      | _, _ => .ok false

/-! ### Repo path allocator (generate_repo_path) -/

/-- Characters legal inside a URL scheme. -/
def schemeChar (c : Char) : Bool :=
  c.isAlphanum || c == '+' || c == '-' || c == '.'

/-- Drops a leading well-formed scheme and its colon, keeping everything else. -/
def dropScheme (cs : List Char) : List Char :=
  let pre := cs.takeWhile (fun c => c != ':')
  match pre with
  | [] => cs
  | c0 :: _ =>
    if pre.length < cs.length && c0.isAlpha && pre.all schemeChar then
      cs.drop (pre.length + 1)
    else cs

/-- Drops a leading network-location component introduced by a double slash. -/
def dropNetloc : List Char → List Char
  | '/' :: '/' :: rest => rest.dropWhile (fun c => c != '/' && c != '?' && c != '#')
  | cs => cs

/-- Drops a fragment and a query from the tail of the URL. -/
def dropFragmentQuery (cs : List Char) : List Char :=
  (cs.takeWhile (fun c => c != '#')).takeWhile (fun c => c != '?')

/-- Drops the parameter section of the last path segment, after a semicolon. -/
def dropParams (cs : List Char) : List Char :=
  if cs.contains '/' then
    let revSeg := cs.reverse.takeWhile (fun c => c != '/')
    cs.take (cs.length - revSeg.length) ++ revSeg.reverse.takeWhile (fun c => c != ';')
  else cs.takeWhile (fun c => c != ';')

/-- Models urllib.parse.urlparse(url).path for inputs free of control
characters: leading and trailing whitespace is removed, then tab and line
break characters everywhere, then the scheme, the network location, the
fragment, the query and the last-segment parameters are peeled off. -/
def urlparsePath (url : String) : List Char :=
  let cs := pyStrip url.data
  let cs := cs.filter (fun c => c != '\t' && c != '\r' && c != '\n')
  dropParams (dropFragmentQuery (dropNetloc (dropScheme cs)))

/-- The characters of string.ascii_lowercase + string.digits. -/
def lowerAlnumChar (c : Char) : Bool :=
  ('a' ≤ c && c ≤ 'z') || ('0' ≤ c && c ≤ '9')

/-- Models generate_repo_path.  The uuid.uuid4() draw is an oracle input: the
textual form of the fresh 128-bit identifier is passed in as uuidText. -/
def generate_repo_path (url : String) (uuidText : String) : String :=
  let path := (stripWhile (fun c => c == '/') (pyStrip (urlparsePath url))).map Char.toLower
  let safe_chars := path.filter lowerAlnumChar
  String.mk safe_chars ++ "-" ++ uuidText

/-- Modelled from the spec: the allocate_path contract of the specification,
word for word — the URL's path component lowercased, then stripped of leading
and trailing separators, then filtered to lowercase-alphanumeric characters,
then one separator and the fresh identifier.  Compared against
generate_repo_path, which follows the source. -/
def allocate_path_spec (url : String) (uuidText : String) : String :=
  let path := stripWhile (fun c => c == '/') ((urlparsePath url).map Char.toLower)
  String.mk (path.filter lowerAlnumChar) ++ "-" ++ uuidText

/-! ### Sync executor (sync_repos) -/

/-- One external git invocation: its argument vector and its timeout. -/
structure GitCmd where
  args : List String
  timeoutSec : Nat
deriving DecidableEq, Repr

/-- Outcome of one external git invocation under subprocess.run with
check=True: normal exit 0, CalledProcessError, or TimeoutExpired. -/
inductive GitOutcome where
  | ok
  | nonzeroExit
  | timedOut
deriving DecidableEq, Repr

/-- The exception an invocation outcome raises, if any. -/
def outcomeExc : GitOutcome → Option PyExc
  | .ok => none
  | .nonzeroExit => some .calledProcessError
  | .timedOut => some .timeoutExpired

/-- The three git invocations of sync_repos against the working directory, in
source order: remote add, fetch, force push. -/
def syncInvocations (job : MirrorJob) (repo_dir : String) : List GitCmd :=
  [⟨["git", "-C", repo_dir, "remote", "add", job.name, job.from_repo], 30⟩,
   ⟨["git", "-C", repo_dir, "fetch", job.name, job.from_branch], 1800⟩,
   ⟨["git", "-C", repo_dir, "push", "--force", "origin",
      "refs/remotes/" ++ job.name ++ "/" ++ job.from_branch ++ ":refs/heads/"
        ++ job.to_branch], 1800⟩]

/-- Runs a command list in order with check=True semantics: the first failing
command raises, so later commands are not executed.  Returns the commands
actually invoked and the exception, if one was raised. -/
def runGitSeq (git : GitCmd → GitOutcome) :
    List GitCmd → List GitCmd × Option PyExc
  | [] => ([], none)
  | c :: cs =>
    match outcomeExc (git c) with
    | none =>
      let (ran, e) := runGitSeq git cs
      (c :: ran, e)
    | some e => ([c], some e)

/-- Models sync_repos: re-reads the memoized heads of the target (raising
ValueError when they are absent), then runs the three git invocations.
Returns the invocations performed and the exception, if one was raised. -/
def sync_repos (net : String → LsRemoteResult) (git : GitCmd → GitOutcome)
    (job : MirrorJob) (repo_dir : String) : List GitCmd × Option PyExc :=
  match resolveOnce net job.to_repo with
  | .error e => ([], some e)
  | .ok none => ([], some .valueError)
  | .ok (some _) => runGitSeq git (syncInvocations job repo_dir)

/-! ### Job grouper and scheduler (main) -/

/-- Lexicographic code-point comparison of character lists, the order Python
uses to compare str values in sorted. -/
def lexLe : List Char → List Char → Bool
  | [], _ => true
  | _ :: _, [] => false
  | a :: as, b :: bs =>
    if a.toNat < b.toNat then true
    else if b.toNat < a.toNat then false
    else lexLe as bs

/-- The sort key of main: by_repo_url compares jobs by their to_repo string. -/
def jobRel (a b : MirrorJob) : Prop :=
  lexLe a.to_repo.data b.to_repo.data = true

instance : DecidableRel jobRel := fun a b => by
  unfold jobRel
  infer_instance

/-- Models itertools.groupby with a key function: collapses maximal runs of
adjacent elements with equal keys into one (key, group) pair. -/
def pyGroupBy {α : Type} (key : α → String) : List α → List (String × List α)
  | [] => []
  | x :: xs =>
    match pyGroupBy key xs with
    | [] => [(key x, [x])]
    | (k, g) :: rest =>
      if key x == k then (k, x :: g) :: rest
      else (key x, [x]) :: (k, g) :: rest

/-- The grouping step of main: sorted(jobs, key=by_repo_url) — a stable sort
by the target url — then itertools.groupby with the same key. -/
def groupJobs (jobs : List MirrorJob) : List (String × List MirrorJob) :=
  pyGroupBy MirrorJob.to_repo (List.insertionSort jobRel jobs)

/-- The filtering comprehension of main: keeps the jobs for which
should_sync_job answers true, in order; a raised exception propagates. -/
def filterJobs (net : String → LsRemoteResult) :
    List MirrorJob → Except PyExc (List MirrorJob)
  | [] => .ok []
  | j :: rest =>
    match should_sync_job net j with
    | .error e => .error e
    | .ok b =>
      match filterJobs net rest with
      | .error e => .error e
      | .ok tail => .ok (if b then j :: tail else tail)

/-- The clone invocation of main for one group. -/
def cloneCmdFor (url path : String) : GitCmd :=
  ⟨["git", "clone", "--no-checkout", url, path], 1800⟩

/-- The per-clone configuration invocation of main for one group. -/
def configCmdFor (path : String) : GitCmd :=
  ⟨["git", "-C", path, "config", "http.postBuffer", "157286400"], 30⟩

/-- Everything main records about one fully processed group. -/
structure GroupResult where
  repoUrl : String
  repoPath : String
  jobs : List MirrorJob
  cloneCmd : GitCmd
  configCmd : GitCmd
  syncCmds : List GitCmd
  outcomes : List (String × Bool)
  groupFailure : Bool
  rmAttempted : Bool
  removed : Bool
deriving DecidableEq, Repr

/-- The inner job loop of main for one group: each job's sync_repos runs under
a bare except, so a per-job failure is recorded and the loop continues.
Returns the (name, succeeded) outcome per job and the git invocations made. -/
def runGroupJobs (net : String → LsRemoteResult) (git : GitCmd → GitOutcome)
    (path : String) : List MirrorJob → List (String × Bool) × List GitCmd
  | [] => ([], [])
  | j :: rest =>
    ((j.name, (sync_repos net git j path).2.isNone)
        :: (runGroupJobs net git path rest).1,
      (sync_repos net git j path).1 ++ (runGroupJobs net git path rest).2)

/-- The group loop of main.  The clone and the configuration run with
check=True outside any try block, so a failure there raises out of main and
no further group is processed: the second component carries the uncaught
exception.  After the job loop, the working directory is removed only when no
job of the group failed, and a removal failure (oracle rmOk) is swallowed. -/
def processGroups (net : String → LsRemoteResult) (git : GitCmd → GitOutcome)
    (rmOk : String → Bool) (uuids : Nat → String) :
    List (String × List MirrorJob) → Nat → List GroupResult × Option PyExc
  | [], _ => ([], none)
  | (url, gjobs) :: rest, ctr =>
    let path := generate_repo_path url (uuids ctr)
    match outcomeExc (git (cloneCmdFor url path)) with
    | some e => ([], some e)
    | none =>
      match outcomeExc (git (configCmdFor path)) with
      | some e => ([], some e)
      | none =>
        let outs := (runGroupJobs net git path gjobs).1
        let gFail := outs.any (fun o => !o.2)
        (⟨url, path, gjobs, cloneCmdFor url path, configCmdFor path,
            (runGroupJobs net git path gjobs).2, outs, gFail, !gFail,
            !gFail && rmOk path⟩
          :: (processGroups net git rmOk uuids rest (ctr + 1)).1,
          (processGroups net git rmOk uuids rest (ctr + 1)).2)

/-- How an execution of main ends: a normal return with an exit code, or an
exception that escapes main. -/
inductive RunResult where
  | finished (groups : List GroupResult) (exitCode : Nat)
  | crashed (groups : List GroupResult) (e : PyExc)
deriving DecidableEq, Repr

/-- Models main, with the configured job list supplied by the configuration
collaborator: filter via should_sync_job, group by target url, process the
groups, and return 1 if any job failed, else 0. -/
def mainRun (net : String → LsRemoteResult) (git : GitCmd → GitOutcome)
    (rmOk : String → Bool) (uuids : Nat → String)
    (configJobs : List MirrorJob) : RunResult :=
  match filterJobs net configJobs with
  | .error e => .crashed [] e
  | .ok jobs =>
    match (processGroups net git rmOk uuids (groupJobs jobs) 0).2 with
    | some e => .crashed (processGroups net git rmOk uuids (groupJobs jobs) 0).1 e
    | none =>
      .finished (processGroups net git rmOk uuids (groupJobs jobs) 0).1
        (if (processGroups net git rmOk uuids (groupJobs jobs) 0).1.any
            (·.groupFailure) then 1 else 0)

/-- The status the operating system observes: the value sys.exit received on a
normal return, and 1 when CPython terminates on an unhandled exception. -/
def processExit : RunResult → Nat
  | .finished _ code => code
  | .crashed _ _ => 1

/-! ### Configuration loader (load_config) -/

/-- The parsed TOML document: the table named mirror, one entry per job name,
each entry a table of key-value pairs. -/
structure TomlDoc where
  mirror : List (String × List (String × String))
deriving DecidableEq, Repr

/-- Models Python str.replace for single characters: k.replace("-", "_"). -/
def pyReplaceDash (s : String) : String :=
  String.mk (s.data.map (fun c => if c == '-' then '_' else c))

/-- The MirrorJob(name=name, **args) construction: succeeds exactly when the
renamed keys are precisely the four remaining dataclass fields (a missing,
extra, or duplicate keyword raises TypeError, modelled as none). -/
def mkMirrorJob (name : String) (args : List (String × String)) :
    Option MirrorJob :=
  let keys := args.map (·.1)
  if keys.length == 4 && keys.contains "from_repo" && keys.contains "from_branch"
      && keys.contains "to_repo" && keys.contains "to_branch" then
    match dictGet args "from_repo", dictGet args "from_branch",
        dictGet args "to_repo", dictGet args "to_branch" with
    | some fr, some fb, some tr, some tb => some ⟨name, fr, fb, tr, tb⟩
    | _, _, _, _ => none
  else none

/-- The loop of load_config over the mirror table: rename hyphenated keys to
the underscored dataclass fields, build each job, and insert it under its
name (a duplicate name overwrites in iteration order). -/
def buildJobs : List (String × List (String × String)) →
    List (String × MirrorJob) → Option (List (String × MirrorJob))
  | [], acc => some acc
  | (name, jd) :: rest, acc =>
    let args := jd.foldl (fun d kv => dictInsert d (pyReplaceDash kv.1) kv.2) []
    match mkMirrorJob name args with
    | none => none
    | some job => buildJobs rest (dictInsert acc name job)

/-- Models load_config.  The filesystem collaborator fs maps a file name to
the parsed document of that file, or none when opening or parsing fails.  The
source opens the literal file mirror-config.toml, ignoring the filename
parameter it received. -/
def load_config (fs : String → Option TomlDoc) (filename : String) :
    Option (List (String × MirrorJob)) :=
  match fs "mirror-config.toml" with
  | none => none
  | some doc => buildJobs doc.mirror []

/-! ### Supporting lemmas -/

theorem char_toNat_inj {a b : Char} (h : a.toNat = b.toNat) : a = b :=
  Char.ext (UInt32.ext h)

/-- C10: load_config ignores its filename parameter: it always reads
mirror-config.toml, and identical contents of that file give identical job
mappings, whatever filenames are passed. -/
theorem C10_load_config_filename_independent
    (fs fs' : String → Option TomlDoc) (f1 f2 : String)
    (h : fs "mirror-config.toml" = fs' "mirror-config.toml") :
    load_config fs f1 = load_config fs' f2 := by
  unfold load_config
  rw [h]

theorem C10_witness :
    load_config (fun n => if n == "mirror-config.toml"
        then some ⟨[("j", [("from-repo", "s"), ("from-branch", "m"),
          ("to-repo", "t"), ("to-branch", "m")])]⟩ else none) "alpha.toml"
      = load_config (fun _ => some ⟨[("j", [("from-repo", "s"), ("from-branch", "m"),
          ("to-repo", "t"), ("to-branch", "m")])]⟩) "beta.toml" :=
  C10_load_config_filename_independent _ _ _ _ rfl

/-- C2 as stated is false at this input: when the branch-listing invocation
times out, get_remote_heads does not return the absent value — the
TimeoutExpired exception escapes its boundary. -/
theorem C2_counterexample :
    resolveOnce (fun _ => .timedOut) "https://host/r.git"
        = .error .timeoutExpired ∧
    resolveOnce (fun _ => .timedOut) "https://host/r.git" ≠ .ok none := by
  refine ⟨rfl, fun h => ?_⟩
  rw [show resolveOnce (fun _ => .timedOut) "https://host/r.git"
      = .error .timeoutExpired from rfl] at h
  exact Except.noConfusion h

/-- C2 amended: get_remote_heads returns the branch-to-hash mapping when the
invocation succeeds and every output line is well formed, and returns the
absent value on a non-zero exit; but a timeout raises TimeoutExpired and a
malformed output line raises ValueError, so those two failure modes do
propagate past its boundary. -/
theorem C2_remote_head_resolver (net : String → LsRemoteResult) (url : String) :
    (net url = .nonzeroExit → resolveOnce net url = .ok none) ∧
    (net url = .timedOut → resolveOnce net url = .error .timeoutExpired) ∧
    (∀ out heads, net url = .ok out →
      buildHeads [] (pySplitlines out.data) = some heads →
      resolveOnce net url = .ok (some heads)) ∧
    (∀ out, net url = .ok out →
      buildHeads [] (pySplitlines out.data) = none →
      resolveOnce net url = .error .valueError) := by
  refine ⟨fun h => ?_, fun h => ?_, fun out heads h hb => ?_, fun out h hb => ?_⟩ <;>
    unfold resolveOnce <;> rw [h] <;> dsimp only <;> rw [hb]

theorem C2_witness :
    resolveOnce (fun _ => .nonzeroExit) "u" = .ok none ∧
    resolveOnce (fun _ => .ok "h\trefs/heads/main\n") "u" = .ok (some [("main", "h")]) ∧
    resolveOnce (fun _ => .ok "one-malformed-line") "u" = .error .valueError :=
  ⟨(C2_remote_head_resolver _ "u").1 rfl,
   (C2_remote_head_resolver _ "u").2.2.1 _ _ rfl rfl,
   (C2_remote_head_resolver _ "u").2.2.2 _ rfl rfl⟩

/-- C3: should_sync_job answers false when either endpoint resolved to the
absent value, false when the source heads hold no entry for from_branch,
false when source and target hashes are strictly equal, and true otherwise —
in particular an absent target branch with a present source branch gives
true. -/
theorem C3_should_sync_job (net : String → LsRemoteResult) (job : MirrorJob)
    (fh? th? : Option Heads)
    (hf : resolveOnce net job.from_repo = .ok fh?)
    (ht : resolveOnce net job.to_repo = .ok th?) :
    ((fh? = none ∨ th? = none) → should_sync_job net job = .ok false) ∧
    (∀ fh th, fh? = some fh → th? = some th →
      ((dictGet fh job.from_branch = none → should_sync_job net job = .ok false) ∧
       (∀ h, dictGet fh job.from_branch = some h →
         ((dictGet th job.to_branch = some h → should_sync_job net job = .ok false) ∧
          (dictGet th job.to_branch ≠ some h →
            should_sync_job net job = .ok true))))) := by
  unfold should_sync_job
  rw [hf, ht]
  dsimp only
  constructor
  · rintro (rfl | rfl)
    · cases th? <;> rfl
    · cases fh? <;> rfl
  · rintro fh th rfl rfl
    dsimp only
    constructor
    · intro h0
      rw [h0]
    · intro h h1
      rw [h1]
      dsimp only
      constructor
      · intro h2
        rw [h2, if_pos rfl]
      · intro h2
        rw [if_neg (fun hh => h2 hh.symm)]

def wNetNZ : String → LsRemoteResult :=
  fun u => if u == "s" then .ok "h1\trefs/heads/main\n" else .nonzeroExit

def wNetEmptyTgt : String → LsRemoteResult :=
  fun u => if u == "s" then .ok "h1\trefs/heads/main\n" else .ok ""

def wNetSame : String → LsRemoteResult :=
  fun _ => .ok "h1\trefs/heads/main\n"

def wJob (fb tb : String) : MirrorJob := ⟨"j", "s", fb, "t", tb⟩

theorem C3_witness :
    should_sync_job wNetNZ (wJob "main" "mirror") = .ok false ∧
    should_sync_job wNetEmptyTgt (wJob "other" "mirror") = .ok false ∧
    should_sync_job wNetSame (wJob "main" "main") = .ok false ∧
    should_sync_job wNetEmptyTgt (wJob "main" "mirror") = .ok true :=
  ⟨(C3_should_sync_job wNetNZ (wJob "main" "mirror")
      (some [("main", "h1")]) none rfl rfl).1 (Or.inr rfl),
   ((C3_should_sync_job wNetEmptyTgt (wJob "other" "mirror")
      (some [("main", "h1")]) (some []) rfl rfl).2 _ _ rfl rfl).1 rfl,
   (((C3_should_sync_job wNetSame (wJob "main" "main")
      (some [("main", "h1")]) (some [("main", "h1")])
      rfl rfl).2 _ _ rfl rfl).2 "h1" rfl).1 rfl,
   (((C3_should_sync_job wNetEmptyTgt (wJob "main" "mirror")
      (some [("main", "h1")]) (some [])
      rfl rfl).2 _ _ rfl rfl).2 "h1" rfl).2 (by decide)⟩

/-- C7: given an already-cloned working directory (the heads of the target are
memoized as present), sync_repos performs exactly the three git invocations
against the working directory in order — remote add with a 30-unit timeout,
single-branch fetch with a 1800-unit timeout, and force-push of
refs/remotes/name/from_branch onto refs/heads/to_branch with a 1800-unit
timeout — and the first failing step raises, so the job aborts with the
failure recorded and later steps never run. -/
theorem C7_sync_executor (net : String → LsRemoteResult) (git : GitCmd → GitOutcome)
    (job : MirrorJob) (repo_dir : String) (th : Heads)
    (hres : resolveOnce net job.to_repo = .ok (some th)) :
    (git ⟨["git", "-C", repo_dir, "remote", "add", job.name, job.from_repo], 30⟩ = .ok →
     git ⟨["git", "-C", repo_dir, "fetch", job.name, job.from_branch], 1800⟩ = .ok →
     git ⟨["git", "-C", repo_dir, "push", "--force", "origin",
        "refs/remotes/" ++ job.name ++ "/" ++ job.from_branch ++ ":refs/heads/"
          ++ job.to_branch], 1800⟩ = .ok →
      sync_repos net git job repo_dir =
        ([⟨["git", "-C", repo_dir, "remote", "add", job.name, job.from_repo], 30⟩,
          ⟨["git", "-C", repo_dir, "fetch", job.name, job.from_branch], 1800⟩,
          ⟨["git", "-C", repo_dir, "push", "--force", "origin",
            "refs/remotes/" ++ job.name ++ "/" ++ job.from_branch ++ ":refs/heads/"
              ++ job.to_branch], 1800⟩], none)) ∧
    (∀ e, outcomeExc (git ⟨["git", "-C", repo_dir, "remote", "add", job.name,
        job.from_repo], 30⟩) = some e →
      sync_repos net git job repo_dir =
        ([⟨["git", "-C", repo_dir, "remote", "add", job.name, job.from_repo], 30⟩],
          some e)) ∧
    (∀ e, git ⟨["git", "-C", repo_dir, "remote", "add", job.name, job.from_repo], 30⟩
        = .ok →
      outcomeExc (git ⟨["git", "-C", repo_dir, "fetch", job.name, job.from_branch],
        1800⟩) = some e →
      sync_repos net git job repo_dir =
        ([⟨["git", "-C", repo_dir, "remote", "add", job.name, job.from_repo], 30⟩,
          ⟨["git", "-C", repo_dir, "fetch", job.name, job.from_branch], 1800⟩],
          some e)) ∧
    (∀ e, git ⟨["git", "-C", repo_dir, "remote", "add", job.name, job.from_repo], 30⟩
        = .ok →
      git ⟨["git", "-C", repo_dir, "fetch", job.name, job.from_branch], 1800⟩ = .ok →
      outcomeExc (git ⟨["git", "-C", repo_dir, "push", "--force", "origin",
        "refs/remotes/" ++ job.name ++ "/" ++ job.from_branch ++ ":refs/heads/"
          ++ job.to_branch], 1800⟩) = some e →
      sync_repos net git job repo_dir =
        ([⟨["git", "-C", repo_dir, "remote", "add", job.name, job.from_repo], 30⟩,
          ⟨["git", "-C", repo_dir, "fetch", job.name, job.from_branch], 1800⟩,
          ⟨["git", "-C", repo_dir, "push", "--force", "origin",
            "refs/remotes/" ++ job.name ++ "/" ++ job.from_branch ++ ":refs/heads/"
              ++ job.to_branch], 1800⟩], some e)) := by
  refine ⟨fun h1 h2 h3 => ?_, fun e he => ?_, fun e h1 he => ?_,
    fun e h1 h2 he => ?_⟩ <;>
    simp only [sync_repos, hres, syncInvocations, runGitSeq]
  · rw [h1, h2, h3] <;> rfl
  · rw [he] <;> rfl
  · rw [h1, he] <;> rfl
  · rw [h1, h2, he] <;> rfl

def wSyncJob : MirrorJob := ⟨"j", "src", "main", "tgt", "mirror"⟩

def wGitOk : GitCmd → GitOutcome := fun _ => .ok

def wGitFetchFails : GitCmd → GitOutcome :=
  fun c => if c.args.contains "fetch" then .nonzeroExit else .ok

theorem C7_witness :
    sync_repos wNetSame wGitOk wSyncJob "d" =
      ([⟨["git", "-C", "d", "remote", "add", "j", "src"], 30⟩,
        ⟨["git", "-C", "d", "fetch", "j", "main"], 1800⟩,
        ⟨["git", "-C", "d", "push", "--force", "origin",
          "refs/remotes/j/main:refs/heads/mirror"], 1800⟩], none) ∧
    sync_repos wNetSame wGitFetchFails wSyncJob "d" =
      ([⟨["git", "-C", "d", "remote", "add", "j", "src"], 30⟩,
        ⟨["git", "-C", "d", "fetch", "j", "main"], 1800⟩],
        some .calledProcessError) :=
  ⟨(C7_sync_executor wNetSame wGitOk wSyncJob "d" [("main", "h1")] rfl).1
      rfl rfl rfl,
   (C7_sync_executor wNetSame wGitFetchFails wSyncJob "d" [("main", "h1")]
      rfl).2.2.1 .calledProcessError rfl rfl⟩

/-! ### Memoization lemmas for the remote head resolver -/


theorem dictGet_append_some {β : Type} {d1 : List (String × β)}
    (d2 : List (String × β)) {k : String} {v : β}
    (h : dictGet d1 k = some v) : dictGet (d1 ++ d2) k = some v := by
  induction d1 with
  | nil => exact absurd h (by simp [dictGet])
  | cons p rest ih =>
    rcases p with ⟨k1, v1⟩
    simp only [dictGet, List.cons_append] at h ⊢
    cases hk : (k1 == k)
    · rw [hk] at h
      simp only [Bool.false_eq_true, if_false] at h ⊢
      exact ih h
    · rw [hk] at h
      simp only [if_true] at h ⊢
      exact h

theorem dictGet_append_none {β : Type} {d1 : List (String × β)}
    (d2 : List (String × β)) {k : String}
    (h : dictGet d1 k = none) : dictGet (d1 ++ d2) k = dictGet d2 k := by
  induction d1 with
  | nil => rfl
  | cons p rest ih =>
    rcases p with ⟨k1, v1⟩
    simp only [dictGet, List.cons_append] at h ⊢
    cases hk : (k1 == k)
    · rw [hk] at h
      simp only [Bool.false_eq_true, if_false] at h ⊢
      exact ih h
    · rw [hk] at h
      simp only [if_true] at h
      exact absurd h (by simp)

/-- The functools.cache contents always agree with what a fresh query would
return: every cached value is the value resolveOnce computes for that url. -/
def CacheFaithful (net : String → LsRemoteResult)
    (cache : List (String × Option Heads)) : Prop :=
  ∀ u v, dictGet cache u = some v → resolveOnce net u = .ok v

theorem cacheFaithful_extend (net : String → LsRemoteResult)
    (cache : List (String × Option Heads)) (url : String) (v : Option Heads)
    (hcf : CacheFaithful net cache) (hr : resolveOnce net url = .ok v) :
    CacheFaithful net (cache ++ [(url, v)]) := by
  intro u w hw
  cases hu : dictGet cache u with
  | some w1 =>
    rw [dictGet_append_some _ hu] at hw
    injection hw with hww
    rw [← hww]
    exact hcf u w1 hu
  | none =>
    rw [dictGet_append_none _ hu] at hw
    simp only [dictGet] at hw
    cases hk : (url == u)
    · rw [hk] at hw
      exact absurd hw (by simp)
    · rw [hk] at hw
      simp only [if_true] at hw
      injection hw with hww
      rw [← (by simpa using hk : url = u), ← hww]
      exact hr

/-- With a deterministic network, the memoized get_remote_heads returns the
same value a fresh invocation would: this justifies modelling the resolver
calls of should_sync_job and sync_repos by resolveOnce. -/
theorem get_remote_heads_consistent (net : String → LsRemoteResult)
    (s : ResolverState) (url : String) (hcf : CacheFaithful net s.cache) :
    (get_remote_heads net s url).1 = resolveOnce net url := by
  unfold get_remote_heads
  cases h : dictGet s.cache url with
  | some v =>
    dsimp only
    exact (hcf url v h).symm
  | none =>
    cases hr : resolveOnce net url <;> rfl

/-- Invariant of the query log: no url is ever queried twice, because a
successful query is cached and an unsuccessful one aborts the run. -/
def QueriesInv (s : ResolverState) : Prop :=
  s.queries.Nodup ∧ ∀ u ∈ s.queries, (dictGet s.cache u).isSome = true

theorem runResolverCalls_queries_nodup (net : String → LsRemoteResult)
    (calls : List String) : ∀ s, QueriesInv s →
    ((runResolverCalls net calls s).2.queries).Nodup := by
  induction calls with
  | nil => exact fun s hs => hs.1
  | cons url rest ih =>
    intro s hs
    have hnotq : dictGet s.cache url = none → url ∉ s.queries := by
      intro h hm
      have := hs.2 url hm
      rw [h] at this
      exact absurd this (by simp)
    cases h : dictGet s.cache url with
    | some v =>
      simp only [runResolverCalls, get_remote_heads, h]
      exact ih s hs
    | none =>
      cases hr : resolveOnce net url with
      | ok v =>
        simp only [runResolverCalls, get_remote_heads, h, hr]
        apply ih
        constructor
        · simp [List.nodup_append, hs.1, hnotq h]
        · intro u hm
          rcases List.mem_append.mp hm with hm1 | hm2
          · have hsome := hs.2 u hm1
            cases hu : dictGet s.cache u with
            | none =>
              rw [hu] at hsome
              exact absurd hsome (by simp)
            | some w =>
              rw [dictGet_append_some _ hu]
              rfl
          · have hu2 : u = url := by simpa using hm2
            subst hu2
            rw [dictGet_append_none _ h]
            simp [dictGet]
      | error e =>
        simp only [runResolverCalls, get_remote_heads, h, hr]
        simp [List.nodup_append, hs.1, hnotq h]

theorem runResolverCalls_result (net : String → LsRemoteResult)
    (calls : List String) : ∀ s, CacheFaithful net s.cache →
    ∀ url r, (url, r) ∈ (runResolverCalls net calls s).1 →
    r = resolveOnce net url := by
  induction calls with
  | nil =>
    intro s _ url r hm
    exact absurd hm (by simp [runResolverCalls])
  | cons u0 rest ih =>
    intro s hcf url r hm
    cases h : dictGet s.cache u0 with
    | some v =>
      simp only [runResolverCalls, get_remote_heads, h] at hm
      rcases List.mem_cons.mp hm with heq | hm2
      · injection heq with h1 h2
        rw [h2, h1]
        exact (hcf u0 v h).symm
      · exact ih s hcf url r hm2
    | none =>
      cases hr : resolveOnce net u0 with
      | ok v =>
        simp only [runResolverCalls, get_remote_heads, h, hr] at hm
        rcases List.mem_cons.mp hm with heq | hm2
        · injection heq with h1 h2
          subst h1
          rw [h2]
          exact hr.symm
        · exact ih ⟨s.cache ++ [(u0, v)], s.queries ++ [u0]⟩
            (cacheFaithful_extend net s.cache u0 v hcf hr) url r hm2
      | error e =>
        simp only [runResolverCalls, get_remote_heads, h, hr] at hm
        rcases List.mem_cons.mp hm with heq | hm2
        · injection heq with h1 h2
          subst h1
          rw [h2]
          exact hr.symm
        · exact absurd hm2 (by simp)

/-- C8: the resolver is memoized per url within one run — a cached url is
answered with the identical stored result and no state change, a fresh url
appends exactly one network query, over any run from the empty cache each url
is queried at most once, and any two calls for the same url that return do
return the same value. -/
theorem C8_memoization (net : String → LsRemoteResult) :
    (∀ s url v, dictGet s.cache url = some v →
      get_remote_heads net s url = (.ok v, s)) ∧
    (∀ s url, dictGet s.cache url = none →
      (get_remote_heads net s url).2.queries = s.queries ++ [url]) ∧
    (∀ calls url,
      (runResolverCalls net calls ⟨[], []⟩).2.queries.count url ≤ 1) ∧
    (∀ calls url r1 r2,
      (url, r1) ∈ (runResolverCalls net calls ⟨[], []⟩).1 →
      (url, r2) ∈ (runResolverCalls net calls ⟨[], []⟩).1 → r1 = r2) := by
  refine ⟨fun s url v h => ?_, fun s url h => ?_, fun calls url => ?_,
    fun calls url r1 r2 h1 h2 => ?_⟩
  · unfold get_remote_heads
    rw [h]
  · unfold get_remote_heads
    rw [h]
    cases resolveOnce net url <;> rfl
  · refine List.nodup_iff_count_le_one.mp ?_ url
    refine runResolverCalls_queries_nodup net calls ⟨[], []⟩ ⟨List.nodup_nil, ?_⟩
    intro u hu
    exact absurd hu (List.not_mem_nil u)
  · have hcf : CacheFaithful net (⟨[], []⟩ : ResolverState).cache := by
      intro u v h
      exact absurd h (by simp [dictGet])
    rw [runResolverCalls_result net calls ⟨[], []⟩ hcf url r1 h1,
      runResolverCalls_result net calls ⟨[], []⟩ hcf url r2 h2]

theorem C8_witness :
    get_remote_heads (fun _ => .nonzeroExit)
        ⟨[("u", some [("m", "h")])], ["u"]⟩ "u"
      = (.ok (some [("m", "h")]), ⟨[("u", some [("m", "h")])], ["u"]⟩) ∧
    (get_remote_heads (fun _ => .nonzeroExit) ⟨[], []⟩ "u").2.queries = ["u"] :=
  ⟨(C8_memoization (fun _ => .nonzeroExit)).1
      ⟨[("u", some [("m", "h")])], ["u"]⟩ "u" (some [("m", "h")]) rfl,
   (C8_memoization (fun _ => .nonzeroExit)).2.1 ⟨[], []⟩ "u" rfl⟩

/-! ### Filter and strip lemmas for the path allocator -/

theorem filter_dropWhile {α : Type} (p q : α → Bool)
    (h : ∀ c, q c = true → p c = false) :
    ∀ l : List α, (l.dropWhile q).filter p = l.filter p := by
  intro l
  induction l with
  | nil => rfl
  | cons c cs ih =>
    cases hq : q c
    · rw [List.dropWhile_cons, hq]
      simp only [Bool.false_eq_true, if_false]
    · rw [List.dropWhile_cons, hq]
      simp only [if_true]
      rw [ih, List.filter_cons, h c hq]
      simp only [Bool.false_eq_true, if_false]

theorem filter_stripWhile (p q : Char → Bool) (h : ∀ c, q c = true → p c = false)
    (l : List Char) : (stripWhile q l).filter p = l.filter p := by
  unfold stripWhile
  rw [List.filter_reverse, filter_dropWhile p q h, List.filter_reverse,
    List.reverse_reverse, filter_dropWhile p q h]

theorem string_data_inj {s t : String} (h : s.data = t.data) : s = t := by
  cases s
  cases t
  exact congrArg String.mk h

theorem lowerAlnum_toLower_slash :
    ∀ c : Char, (c == '/') = true → lowerAlnumChar (Char.toLower c) = false := by
  intro c hc
  rw [(by simpa using hc : c = '/')]
  decide

theorem lowerAlnum_slash :
    ∀ c : Char, (c == '/') = true → lowerAlnumChar c = false := by
  intro c hc
  rw [(by simpa using hc : c = '/')]
  decide

theorem lowerAlnum_toLower_space :
    ∀ c : Char, pyIsSpace c = true → lowerAlnumChar (Char.toLower c) = false := by
  intro c hc
  have h6 : ((((c = ' ' ∨ c = '\t') ∨ c = '\n') ∨ c = '\x0d') ∨ c = '\x0b')
      ∨ c = '\x0c' := by simpa [pyIsSpace] using hc
  rcases h6 with ((((rfl | rfl) | rfl) | rfl) | rfl) | rfl <;> decide

/-- C9: generate_repo_path agrees with the specification's allocate_path
contract (path component lowercased, separators stripped, filtered to
lowercase-alphanumeric characters, then one separator and the fresh
identifier); distinct identifier draws give distinct results even for the
same url; and the output decomposes as a purely lowercase-alphanumeric
prefix, one separator, and the identifier text. -/
theorem C9_allocate_path (url u1 u2 : String) (hne : u1 ≠ u2) :
    generate_repo_path url u1 = allocate_path_spec url u1 ∧
    generate_repo_path url u1 ≠ generate_repo_path url u2 ∧
    generate_repo_path url u1 =
      String.mk (((stripWhile (fun c => c == '/')
        (pyStrip (urlparsePath url))).map Char.toLower).filter lowerAlnumChar)
        ++ "-" ++ u1 ∧
    (∀ c ∈ ((stripWhile (fun c => c == '/')
        (pyStrip (urlparsePath url))).map Char.toLower).filter lowerAlnumChar,
      lowerAlnumChar c = true) := by
  refine ⟨?_, ?_, rfl, fun c hc => List.of_mem_filter hc⟩
  · have h1 : generate_repo_path url u1 =
        String.mk (((stripWhile (fun c => c == '/')
          (pyStrip (urlparsePath url))).map Char.toLower).filter lowerAlnumChar)
          ++ "-" ++ u1 := rfl
    have h2 : allocate_path_spec url u1 =
        String.mk ((stripWhile (fun c => c == '/')
          ((urlparsePath url).map Char.toLower)).filter lowerAlnumChar)
          ++ "-" ++ u1 := rfl
    have h3 : (((stripWhile (fun c => c == '/')
        (pyStrip (urlparsePath url))).map Char.toLower).filter lowerAlnumChar)
        = ((stripWhile (fun c => c == '/')
          ((urlparsePath url).map Char.toLower)).filter lowerAlnumChar) := by
      rw [List.filter_map, filter_stripWhile (lowerAlnumChar ∘ Char.toLower)
          (fun c => c == '/') (fun c hc => lowerAlnum_toLower_slash c hc)]
      unfold pyStrip
      rw [filter_stripWhile (lowerAlnumChar ∘ Char.toLower) pyIsSpace
          (fun c hc => lowerAlnum_toLower_space c hc)]
      rw [filter_stripWhile lowerAlnumChar (fun c => c == '/')
          (fun c hc => lowerAlnum_slash c hc)]
      rw [List.filter_map]
    rw [h1, h2, h3]
  · intro h
    have hg1 : generate_repo_path url u1 =
        String.mk (((stripWhile (fun c => c == '/')
          (pyStrip (urlparsePath url))).map Char.toLower).filter lowerAlnumChar)
          ++ "-" ++ u1 := rfl
    have hg2 : generate_repo_path url u2 =
        String.mk (((stripWhile (fun c => c == '/')
          (pyStrip (urlparsePath url))).map Char.toLower).filter lowerAlnumChar)
          ++ "-" ++ u2 := rfl
    rw [hg1, hg2] at h
    have hd := congrArg String.data h
    rw [String.data_append, String.data_append, String.data_append,
      String.data_append] at hd
    exact hne (string_data_inj (List.append_cancel_left hd))

theorem C9_witness :
    generate_repo_path "https://gitlab.com/Foo/Bar.git" "aaaa"
      ≠ generate_repo_path "https://gitlab.com/Foo/Bar.git" "bbbb" ∧
    generate_repo_path "https://gitlab.com/Foo/Bar.git" "aaaa"
      = "foobargit-aaaa" :=
  ⟨(C9_allocate_path "https://gitlab.com/Foo/Bar.git" "aaaa" "bbbb"
      (by decide)).2.1, rfl⟩

/-! ### Run coordinator lemmas -/

theorem runGroupJobs_outcomes (net : String → LsRemoteResult)
    (git : GitCmd → GitOutcome) (path : String) :
    ∀ js : List MirrorJob, (runGroupJobs net git path js).1 =
      js.map (fun j => (j.name, (sync_repos net git j path).2.isNone)) := by
  intro js
  induction js with
  | nil => rfl
  | cons j rest ih => simp only [runGroupJobs, List.map_cons, ih]

theorem processGroups_cloneFail (net : String → LsRemoteResult)
    (git : GitCmd → GitOutcome) (rmOk : String → Bool) (uuids : Nat → String)
    (url : String) (gjobs : List MirrorJob)
    (rest : List (String × List MirrorJob)) (ctr : Nat) (e : PyExc)
    (h1 : outcomeExc (git (cloneCmdFor url (generate_repo_path url (uuids ctr))))
      = some e) :
    processGroups net git rmOk uuids ((url, gjobs) :: rest) ctr = ([], some e) := by
  simp only [processGroups, h1]

theorem processGroups_configFail (net : String → LsRemoteResult)
    (git : GitCmd → GitOutcome) (rmOk : String → Bool) (uuids : Nat → String)
    (url : String) (gjobs : List MirrorJob)
    (rest : List (String × List MirrorJob)) (ctr : Nat) (e : PyExc)
    (h1 : outcomeExc (git (cloneCmdFor url (generate_repo_path url (uuids ctr))))
      = none)
    (h2 : outcomeExc (git (configCmdFor (generate_repo_path url (uuids ctr))))
      = some e) :
    processGroups net git rmOk uuids ((url, gjobs) :: rest) ctr = ([], some e) := by
  simp only [processGroups, h1, h2]

theorem processGroups_groupOk (net : String → LsRemoteResult)
    (git : GitCmd → GitOutcome) (rmOk : String → Bool) (uuids : Nat → String)
    (url : String) (gjobs : List MirrorJob)
    (rest : List (String × List MirrorJob)) (ctr : Nat)
    (h1 : outcomeExc (git (cloneCmdFor url (generate_repo_path url (uuids ctr))))
      = none)
    (h2 : outcomeExc (git (configCmdFor (generate_repo_path url (uuids ctr))))
      = none) :
    processGroups net git rmOk uuids ((url, gjobs) :: rest) ctr =
      (⟨url, generate_repo_path url (uuids ctr), gjobs,
          cloneCmdFor url (generate_repo_path url (uuids ctr)),
          configCmdFor (generate_repo_path url (uuids ctr)),
          (runGroupJobs net git (generate_repo_path url (uuids ctr)) gjobs).2,
          (runGroupJobs net git (generate_repo_path url (uuids ctr)) gjobs).1,
          ((runGroupJobs net git (generate_repo_path url (uuids ctr)) gjobs).1.any
            (fun o => !o.2)),
          !((runGroupJobs net git (generate_repo_path url (uuids ctr)) gjobs).1.any
            (fun o => !o.2)),
          (!((runGroupJobs net git (generate_repo_path url (uuids ctr)) gjobs).1.any
            (fun o => !o.2)) && rmOk (generate_repo_path url (uuids ctr)))⟩
        :: (processGroups net git rmOk uuids rest (ctr + 1)).1,
        (processGroups net git rmOk uuids rest (ctr + 1)).2) := by
  simp only [processGroups, h1, h2]

theorem processGroups_mem (net : String → LsRemoteResult)
    (git : GitCmd → GitOutcome) (rmOk : String → Bool) (uuids : Nat → String) :
    ∀ (gs : List (String × List MirrorJob)) (ctr : Nat) (gr : GroupResult),
    gr ∈ (processGroups net git rmOk uuids gs ctr).1 →
    gr.cloneCmd = cloneCmdFor gr.repoUrl gr.repoPath ∧
    gr.configCmd = configCmdFor gr.repoPath ∧
    gr.rmAttempted = !gr.groupFailure ∧
    gr.removed = (!gr.groupFailure && rmOk gr.repoPath) ∧
    gr.groupFailure = gr.outcomes.any (fun o => !o.2) ∧
    gr.outcomes = gr.jobs.map
      (fun j => (j.name, (sync_repos net git j gr.repoPath).2.isNone)) := by
  intro gs
  induction gs with
  | nil =>
    intro ctr gr h
    exact absurd h (by simp [processGroups])
  | cons g rest ih =>
    rcases g with ⟨url, gjobs⟩
    intro ctr gr h
    cases h1 : outcomeExc (git (cloneCmdFor url
        (generate_repo_path url (uuids ctr)))) with
    | some e =>
      rw [processGroups_cloneFail net git rmOk uuids url gjobs rest ctr e h1] at h
      exact absurd h (by simp)
    | none =>
      cases h2 : outcomeExc (git (configCmdFor
          (generate_repo_path url (uuids ctr)))) with
      | some e =>
        rw [processGroups_configFail net git rmOk uuids url gjobs rest ctr e
          h1 h2] at h
        exact absurd h (by simp)
      | none =>
        rw [processGroups_groupOk net git rmOk uuids url gjobs rest ctr
          h1 h2] at h
        rcases List.mem_cons.mp h with rfl | hmem
        · exact ⟨rfl, rfl, rfl, rfl, rfl,
            runGroupJobs_outcomes net git _ gjobs⟩
        · exact ih (ctr + 1) gr hmem

theorem processGroups_rm_irrel (net : String → LsRemoteResult)
    (git : GitCmd → GitOutcome) (uuids : Nat → String)
    (rm1 rm2 : String → Bool) :
    ∀ (gs : List (String × List MirrorJob)) (ctr : Nat),
    (processGroups net git rm1 uuids gs ctr).2
      = (processGroups net git rm2 uuids gs ctr).2 ∧
    (processGroups net git rm1 uuids gs ctr).1.map (·.groupFailure)
      = (processGroups net git rm2 uuids gs ctr).1.map (·.groupFailure) := by
  intro gs
  induction gs with
  | nil => exact fun ctr => ⟨rfl, rfl⟩
  | cons g rest ih =>
    rcases g with ⟨url, gjobs⟩
    intro ctr
    cases h1 : outcomeExc (git (cloneCmdFor url
        (generate_repo_path url (uuids ctr)))) with
    | some e =>
      rw [processGroups_cloneFail net git rm1 uuids url gjobs rest ctr e h1,
        processGroups_cloneFail net git rm2 uuids url gjobs rest ctr e h1]
      exact ⟨rfl, rfl⟩
    | none =>
      cases h2 : outcomeExc (git (configCmdFor
          (generate_repo_path url (uuids ctr)))) with
      | some e =>
        rw [processGroups_configFail net git rm1 uuids url gjobs rest ctr e h1 h2,
          processGroups_configFail net git rm2 uuids url gjobs rest ctr e h1 h2]
        exact ⟨rfl, rfl⟩
      | none =>
        rw [processGroups_groupOk net git rm1 uuids url gjobs rest ctr h1 h2,
          processGroups_groupOk net git rm2 uuids url gjobs rest ctr h1 h2]
        refine ⟨(ih (ctr + 1)).1, ?_⟩
        simp only [List.map_cons]
        rw [(ih (ctr + 1)).2]

theorem processGroups_ok_shape (net : String → LsRemoteResult)
    (git : GitCmd → GitOutcome) (rmOk : String → Bool) (uuids : Nat → String) :
    ∀ (gs : List (String × List MirrorJob)) (ctr : Nat),
    (processGroups net git rmOk uuids gs ctr).2 = none →
    (processGroups net git rmOk uuids gs ctr).1.map (fun g => (g.repoUrl, g.jobs))
      = gs := by
  intro gs
  induction gs with
  | nil => exact fun ctr _ => rfl
  | cons g rest ih =>
    rcases g with ⟨url, gjobs⟩
    intro ctr h
    cases h1 : outcomeExc (git (cloneCmdFor url
        (generate_repo_path url (uuids ctr)))) with
    | some e =>
      rw [processGroups_cloneFail net git rmOk uuids url gjobs rest ctr e h1] at h
      exact absurd h (by simp)
    | none =>
      cases h2 : outcomeExc (git (configCmdFor
          (generate_repo_path url (uuids ctr)))) with
      | some e =>
        rw [processGroups_configFail net git rmOk uuids url gjobs rest ctr e
          h1 h2] at h
        exact absurd h (by simp)
      | none =>
        rw [processGroups_groupOk net git rmOk uuids url gjobs rest ctr h1 h2]
          at h ⊢
        simp only [List.map_cons]
        rw [ih (ctr + 1) h]

theorem any_groupFailure_eq {l1 l2 : List GroupResult}
    (h : l1.map (·.groupFailure) = l2.map (·.groupFailure)) :
    l1.any (·.groupFailure) = l2.any (·.groupFailure) := by
  have e1 : ∀ l : List GroupResult,
      l.any (·.groupFailure) = (l.map (·.groupFailure)).any id := by
    intro l
    induction l with
    | nil => rfl
    | cons a t ih => simp [ih]
  rw [e1, e1, h]

theorem mainRun_finished_inv (net : String → LsRemoteResult)
    (git : GitCmd → GitOutcome) (rmOk : String → Bool) (uuids : Nat → String)
    (configJobs : List MirrorJob) (grs : List GroupResult) (code : Nat)
    (h : mainRun net git rmOk uuids configJobs = .finished grs code) :
    ∃ sel, filterJobs net configJobs = .ok sel ∧
      (processGroups net git rmOk uuids (groupJobs sel) 0).2 = none ∧
      (processGroups net git rmOk uuids (groupJobs sel) 0).1 = grs ∧
      code = (if grs.any (·.groupFailure) then 1 else 0) := by
  unfold mainRun at h
  cases hf : filterJobs net configJobs with
  | error e =>
    rw [hf] at h
    exact RunResult.noConfusion h
  | ok sel =>
    rw [hf] at h
    dsimp only at h
    cases hp : (processGroups net git rmOk uuids (groupJobs sel) 0).2 with
    | some e =>
      rw [hp] at h
      exact RunResult.noConfusion h
    | none =>
      rw [hp] at h
      have h' : RunResult.finished
          (processGroups net git rmOk uuids (groupJobs sel) 0).1
          (if (processGroups net git rmOk uuids (groupJobs sel) 0).1.any
            (·.groupFailure) then 1 else 0) = .finished grs code := h
      injection h' with e1 e2
      refine ⟨sel, rfl, hp, e1, ?_⟩
      rw [← e2, e1]

/-- C4: the run terminates with status 0 or 1 only; on a normal return the
status is 0 exactly when no group recorded a job failure; a run ended by an
escaped exception terminates with status 1 (the interpreter's exit code for
an unhandled exception); and the exit status does not depend on whether the
post-success directory removal succeeds. -/
theorem C4_exit_status (net : String → LsRemoteResult)
    (git : GitCmd → GitOutcome) (rmOk rmOk2 : String → Bool)
    (uuids : Nat → String) (configJobs : List MirrorJob) :
    (processExit (mainRun net git rmOk uuids configJobs) = 0 ∨
     processExit (mainRun net git rmOk uuids configJobs) = 1) ∧
    (∀ grs code, mainRun net git rmOk uuids configJobs = .finished grs code →
      (code = 0 ↔ grs.any (·.groupFailure) = false)) ∧
    (∀ grs e, mainRun net git rmOk uuids configJobs = .crashed grs e →
      processExit (mainRun net git rmOk uuids configJobs) = 1) ∧
    processExit (mainRun net git rmOk uuids configJobs) =
      processExit (mainRun net git rmOk2 uuids configJobs) := by
  refine ⟨?_, ?_, ?_, ?_⟩
  · cases hm : mainRun net git rmOk uuids configJobs with
    | crashed grs e => exact Or.inr rfl
    | finished grs code =>
      obtain ⟨sel, hf, hp, h1, h2⟩ :=
        mainRun_finished_inv net git rmOk uuids configJobs grs code hm
      rw [h2]
      cases grs.any (·.groupFailure)
      · exact Or.inl rfl
      · exact Or.inr rfl
  · intro grs code hm
    obtain ⟨sel, hf, hp, h1, h2⟩ :=
      mainRun_finished_inv net git rmOk uuids configJobs grs code hm
    rw [h2]
    cases hany : grs.any (·.groupFailure)
    · simp [hany]
    · simp [hany]
  · intro grs e hm
    rw [hm]
    rfl
  · unfold mainRun
    cases hf : filterJobs net configJobs with
    | error e => rfl
    | ok sel =>
      dsimp only
      rw [(processGroups_rm_irrel net git uuids rmOk rmOk2 (groupJobs sel) 0).1]
      cases hp : (processGroups net git rmOk2 uuids (groupJobs sel) 0).2 with
      | some e => rfl
      | none =>
        dsimp only [processExit]
        rw [any_groupFailure_eq
          (processGroups_rm_irrel net git uuids rmOk rmOk2 (groupJobs sel) 0).2]

def wRmTrue : String → Bool := fun _ => true

def wUuids : Nat → String := fun _ => "u0"

def wNetTimeout : String → LsRemoteResult := fun _ => .timedOut

theorem C4_witness :
    ((0 : Nat) = 0 ↔ ([] : List GroupResult).any (·.groupFailure) = false) ∧
    processExit (mainRun wNetTimeout wGitOk wRmTrue wUuids
      [wJob "main" "main"]) = 1 :=
  ⟨(C4_exit_status wNetTimeout wGitOk wRmTrue wRmTrue wUuids []).2.1 [] 0 rfl,
   (C4_exit_status wNetTimeout wGitOk wRmTrue wRmTrue wUuids
      [wJob "main" "main"]).2.2.1 [] .timeoutExpired rfl⟩

/-- C5: per processed group, working-directory removal is attempted exactly
when no job of the group failed; when removal is attempted it succeeds iff
the filesystem permits; when any job failed the directory is never removed
(retained for postmortem); and each job's recorded outcome is a function of
that job alone, so a sibling's failure cannot change an outcome another job
already produced. -/
theorem C5_directory_cleanup (net : String → LsRemoteResult)
    (git : GitCmd → GitOutcome) (rmOk : String → Bool) (uuids : Nat → String)
    (gs : List (String × List MirrorJob)) (ctr : Nat) (gr : GroupResult)
    (hmem : gr ∈ (processGroups net git rmOk uuids gs ctr).1) :
    gr.rmAttempted = !gr.groupFailure ∧
    gr.removed = (!gr.groupFailure && rmOk gr.repoPath) ∧
    (gr.groupFailure = true → gr.removed = false) ∧
    gr.outcomes = gr.jobs.map
      (fun j => (j.name, (sync_repos net git j gr.repoPath).2.isNone)) := by
  obtain ⟨-, -, h3, h4, -, h6⟩ :=
    processGroups_mem net git rmOk uuids gs ctr gr hmem
  refine ⟨h3, h4, ?_, h6⟩
  intro hgf
  rw [h4, hgf]
  rfl

def wC5gr : GroupResult :=
  ⟨"t", "t-u0", [wJob "main" "main"], cloneCmdFor "t" "t-u0",
    configCmdFor "t-u0",
    [⟨["git", "-C", "t-u0", "remote", "add", "j", "s"], 30⟩,
     ⟨["git", "-C", "t-u0", "fetch", "j", "main"], 1800⟩],
    [("j", false)], true, false, false⟩

theorem C5_witness :
    wC5gr.rmAttempted = !wC5gr.groupFailure ∧
    wC5gr.removed = (!wC5gr.groupFailure && wRmTrue wC5gr.repoPath) ∧
    (wC5gr.groupFailure = true → wC5gr.removed = false) ∧
    wC5gr.outcomes = wC5gr.jobs.map (fun j =>
      (j.name, (sync_repos wNetEmptyTgt wGitFetchFails j wC5gr.repoPath).2.isNone)) :=
  C5_directory_cleanup wNetEmptyTgt wGitFetchFails wRmTrue wUuids
    [("t", [wJob "main" "main"])] 0 wC5gr (by decide)

/-- C1 as stated is false at this input: with two groups whose target urls are
tgtA and tgtB and a git oracle whose clone of the first group exits non-zero,
the run does not continue with the remaining group — it ends with the
CalledProcessError escaping main and no group result at all. -/
theorem C1_counterexample :
    mainRun (fun u => if u == "srcA" || u == "srcB"
        then .ok "h1\trefs/heads/main\n" else .ok "")
      (fun _ => .nonzeroExit) wRmTrue wUuids
      [⟨"a", "srcA", "main", "tgtA", "main"⟩,
       ⟨"b", "srcB", "main", "tgtB", "main"⟩]
      = .crashed [] .calledProcessError := rfl

/-- C1 amended: a failure (non-zero exit or timeout) of a group's shared clone
is not caught — the exception aborts the whole run at that point, so neither
the failing group nor any later group produces a result, and the process
terminates with status 1 through the unhandled exception rather than with the
normal aggregated exit status.  Only per-job sync failures are caught and
allow the run to continue. -/
theorem C1_clone_failure_aborts (net : String → LsRemoteResult)
    (git : GitCmd → GitOutcome) (rmOk : String → Bool) (uuids : Nat → String)
    (url : String) (gjobs : List MirrorJob)
    (rest : List (String × List MirrorJob)) (ctr : Nat) (e : PyExc)
    (hclone : outcomeExc (git (cloneCmdFor url
      (generate_repo_path url (uuids ctr)))) = some e) :
    processGroups net git rmOk uuids ((url, gjobs) :: rest) ctr = ([], some e) ∧
    processExit (RunResult.crashed [] e) = 1 :=
  ⟨processGroups_cloneFail net git rmOk uuids url gjobs rest ctr e hclone, rfl⟩

theorem C1_witness :
    processGroups (fun u => if u == "srcA" || u == "srcB"
        then .ok "h1\trefs/heads/main\n" else .ok "")
      (fun _ => .nonzeroExit) wRmTrue wUuids
      [("tgtA", [⟨"a", "srcA", "main", "tgtA", "main"⟩]),
       ("tgtB", [⟨"b", "srcB", "main", "tgtB", "main"⟩])] 0
      = ([], some .calledProcessError) ∧
    processExit (RunResult.crashed [] .calledProcessError) = 1 :=
  C1_clone_failure_aborts _ _ wRmTrue wUuids "tgtA"
    [⟨"a", "srcA", "main", "tgtA", "main"⟩]
    [("tgtB", [⟨"b", "srcB", "main", "tgtB", "main"⟩])] 0
    .calledProcessError rfl

/-! ### Order and grouping lemmas for the scheduler -/

theorem lexLe_refl : ∀ as : List Char, lexLe as as = true := by
  intro as
  induction as with
  | nil => rfl
  | cons a t ih => simp [lexLe, ih]

theorem lexLe_total : ∀ as bs : List Char,
    lexLe as bs = true ∨ lexLe bs as = true := by
  intro as
  induction as with
  | nil => exact fun bs => Or.inl rfl
  | cons a as ih =>
    intro bs
    cases bs with
    | nil => exact Or.inr rfl
    | cons b bs =>
      simp only [lexLe]
      rcases Nat.lt_trichotomy a.toNat b.toNat with hlt | heq | hgt
      · left
        simp [hlt]
      · have h1 : ¬ a.toNat < b.toNat := by omega
        have h2 : ¬ b.toNat < a.toNat := by omega
        simp only [h1, h2, if_false]
        exact ih bs
      · right
        simp [hgt]

theorem lexLe_trans : ∀ as bs cs : List Char, lexLe as bs = true →
    lexLe bs cs = true → lexLe as cs = true := by
  intro as
  induction as with
  | nil => intros; rfl
  | cons a as ih =>
    intro bs cs h1 h2
    cases bs with
    | nil => exact absurd h1 (by simp [lexLe])
    | cons b bs =>
      cases cs with
      | nil => exact absurd h2 (by simp [lexLe])
      | cons c cs =>
        simp only [lexLe] at h1 h2 ⊢
        by_cases hab : a.toNat < b.toNat
        · by_cases hbc : b.toNat < c.toNat
          · simp [Nat.lt_trans hab hbc]
          · by_cases hcb : c.toNat < b.toNat
            · simp [hbc, hcb] at h2
            · have : a.toNat < c.toNat := by omega
              simp [this]
        · by_cases hba : b.toNat < a.toNat
          · simp [hab, hba] at h1
          · by_cases hbc : b.toNat < c.toNat
            · have : a.toNat < c.toNat := by omega
              simp [this]
            · by_cases hcb : c.toNat < b.toNat
              · simp [hbc, hcb] at h2
              · have hac1 : ¬ a.toNat < c.toNat := by omega
                have hac2 : ¬ c.toNat < a.toNat := by omega
                simp only [hab, hba, if_false] at h1
                simp only [hbc, hcb, if_false] at h2
                simp only [hac1, hac2, if_false]
                exact ih bs cs h1 h2

theorem lexLe_antisymm : ∀ as bs : List Char, lexLe as bs = true →
    lexLe bs as = true → as = bs := by
  intro as
  induction as with
  | nil =>
    intro bs h1 h2
    cases bs with
    | nil => rfl
    | cons b bs => exact absurd h2 (by simp [lexLe])
  | cons a as ih =>
    intro bs h1 h2
    cases bs with
    | nil => exact absurd h1 (by simp [lexLe])
    | cons b bs =>
      simp only [lexLe] at h1 h2
      by_cases hab : a.toNat < b.toNat
      · simp [hab, Nat.lt_asymm hab] at h2
      · by_cases hba : b.toNat < a.toNat
        · simp [hab, hba] at h1
        · have : a.toNat = b.toNat := by omega
          have hc : a = b := char_toNat_inj this
          subst hc
          simp only [hab, hba, if_false] at h1 h2
          rw [ih bs h1 h2]

instance : IsTotal MirrorJob jobRel :=
  ⟨fun a b => lexLe_total a.to_repo.data b.to_repo.data⟩

instance : IsTrans MirrorJob jobRel :=
  ⟨fun _ _ _ h1 h2 => lexLe_trans _ _ _ h1 h2⟩

theorem pyGroupBy_ne_nil {α : Type} (key : α → String) (x : α) (xs : List α) :
    pyGroupBy key (x :: xs) ≠ [] := by
  simp only [pyGroupBy]
  cases h : pyGroupBy key xs with
  | nil => simp
  | cons p rest =>
    rcases p with ⟨k, g⟩
    cases hb : (key x == k) <;> simp [hb]

theorem pyGroupBy_head_key {α : Type} (key : α → String) (x : α)
    (xs : List α) :
    ∃ g rest, pyGroupBy key (x :: xs) = (key x, g) :: rest := by
  simp only [pyGroupBy]
  cases h : pyGroupBy key xs with
  | nil => exact ⟨[x], [], rfl⟩
  | cons p rest =>
    rcases p with ⟨k, g⟩
    cases hb : (key x == k)
    · refine ⟨[x], (k, g) :: rest, ?_⟩
      simp [hb]
    · refine ⟨x :: g, rest, ?_⟩
      simp only [hb, if_true]
      rw [(by simpa using hb : key x = k)]

theorem pyGroupBy_flatten {α : Type} (key : α → String) : ∀ l : List α,
    ((pyGroupBy key l).map (·.2)).flatten = l := by
  intro l
  induction l with
  | nil => rfl
  | cons x xs ih =>
    simp only [pyGroupBy]
    cases h : pyGroupBy key xs with
    | nil =>
      have hxs : xs = [] := by
        cases xs with
        | nil => rfl
        | cons y ys => exact absurd h (pyGroupBy_ne_nil key y ys)
      subst hxs
      rfl
    | cons p rest =>
      rcases p with ⟨k, g⟩
      rw [h] at ih
      cases hb : (key x == k)
      · simp only [hb, Bool.false_eq_true, if_false, List.map_cons,
          List.flatten_cons]
        simp only [List.map_cons, List.flatten_cons] at ih
        simp [ih]
      · simp only [hb, if_true, List.map_cons, List.flatten_cons]
        simp only [List.map_cons, List.flatten_cons] at ih
        simp [ih]

theorem pyGroupBy_group_elems {α : Type} (key : α → String) :
    ∀ (l : List α) (p : String × List α), p ∈ pyGroupBy key l →
    p.2 ≠ [] ∧ ∀ x ∈ p.2, key x = p.1 := by
  intro l
  induction l with
  | nil =>
    intro p h
    exact absurd h (by simp [pyGroupBy])
  | cons x xs ih =>
    intro p hp
    simp only [pyGroupBy] at hp
    cases h : pyGroupBy key xs with
    | nil =>
      rw [h] at hp
      have hpx : p = (key x, [x]) := by simpa using hp
      subst hpx
      refine ⟨by simp, ?_⟩
      intro y hy
      rw [(by simpa using hy : y = x)]
    | cons q rest =>
      rcases q with ⟨k, g⟩
      rw [h] at hp
      cases hb : (key x == k)
      · simp only [hb, Bool.false_eq_true, if_false] at hp
        rcases List.mem_cons.mp hp with rfl | hp2
        · refine ⟨by simp, ?_⟩
          intro y hy
          rw [(by simpa using hy : y = x)]
        · exact ih p (h ▸ hp2)
      · simp only [hb, if_true] at hp
        rcases List.mem_cons.mp hp with rfl | hp2
        · have hkg := ih (k, g) (h ▸ List.mem_cons_self (k, g) rest)
          refine ⟨by simp, ?_⟩
          intro y hy
          rcases List.mem_cons.mp hy with rfl | hy2
          · exact (by simpa using hb : key y = k)
          · exact hkg.2 y hy2
        · exact ih p (h ▸ List.mem_cons_of_mem (k, g) hp2)

theorem pyGroupBy_fst_mem {α : Type} (key : α → String) (l : List α)
    (k : String) (hk : k ∈ (pyGroupBy key l).map (·.1)) :
    ∃ x ∈ l, key x = k := by
  obtain ⟨p, hp, hpk⟩ := List.mem_map.mp hk
  obtain ⟨hne, helems⟩ := pyGroupBy_group_elems key l p hp
  cases hg : p.2 with
  | nil => exact absurd hg hne
  | cons y ys =>
    refine ⟨y, ?_, ?_⟩
    · rw [← pyGroupBy_flatten key l]
      refine List.mem_flatten.mpr ⟨p.2, List.mem_map_of_mem (·.2) hp, ?_⟩
      rw [hg]
      exact List.mem_cons_self y ys
    · rw [← hpk]
      exact helems y (by rw [hg]; exact List.mem_cons_self y ys)

theorem pyGroupBy_mem_fst {α : Type} (key : α → String) (l : List α)
    (x : α) (hx : x ∈ l) : key x ∈ (pyGroupBy key l).map (·.1) := by
  rw [← pyGroupBy_flatten key l] at hx
  obtain ⟨g, hg, hxg⟩ := List.mem_flatten.mp hx
  obtain ⟨p, hp, hpg⟩ := List.mem_map.mp hg
  rw [(pyGroupBy_group_elems key l p hp).2 x (hpg ▸ hxg)]
  exact List.mem_map_of_mem (·.1) hp

theorem pyGroupBy_fst_nodup : ∀ l : List MirrorJob, l.Pairwise jobRel →
    ((pyGroupBy MirrorJob.to_repo l).map (·.1)).Nodup := by
  intro l
  induction l with
  | nil => simp [pyGroupBy]
  | cons x xs ih =>
    intro hs
    obtain ⟨hx, hxs⟩ := List.pairwise_cons.mp hs
    have ihn := ih hxs
    simp only [pyGroupBy]
    cases h : pyGroupBy MirrorJob.to_repo xs with
    | nil => simp
    | cons q rest =>
      rcases q with ⟨k, g⟩
      rw [h] at ihn
      cases hb : (x.to_repo == k)
      · simp only [hb, Bool.false_eq_true, if_false, List.map_cons]
        simp only [List.map_cons] at ihn
        refine List.nodup_cons.mpr ⟨?_, ihn⟩
        intro hmem
        have hmem2 : x.to_repo ∈ (pyGroupBy MirrorJob.to_repo xs).map (·.1) := by
          rw [h]
          simpa using hmem
        obtain ⟨j, hj, hkey⟩ :=
          pyGroupBy_fst_mem MirrorJob.to_repo xs x.to_repo hmem2
        obtain ⟨x0, xs2, rfl⟩ : ∃ x0 xs2, xs = x0 :: xs2 := by
          cases xs with
          | nil => exact absurd h (by simp [pyGroupBy])
          | cons a b => exact ⟨a, b, rfl⟩
        obtain ⟨g0, rest0, hg0⟩ := pyGroupBy_head_key MirrorJob.to_repo x0 xs2
        rw [hg0] at h
        injection h with h1 h2
        injection h1 with hk0 hgg
        have r1 : jobRel x x0 := hx x0 (List.mem_cons_self x0 xs2)
        have r2 : jobRel x0 j := by
          rcases List.mem_cons.mp hj with rfl | hj2
          · exact lexLe_refl _
          · exact (List.pairwise_cons.mp hxs).1 j hj2
        have hle1 : lexLe x.to_repo.data x0.to_repo.data = true := r1
        have hle2 : lexLe x0.to_repo.data x.to_repo.data = true := by
          have h2j : lexLe x0.to_repo.data j.to_repo.data = true := r2
          rwa [hkey] at h2j
        have heq : x.to_repo = k := by
          rw [← hk0]
          exact string_data_inj (lexLe_antisymm _ _ hle1 hle2)
        rw [heq] at hb
        simp at hb
      · simp only [hb, if_true, List.map_cons]
        simp only [List.map_cons] at ihn
        exact ihn

/-- C6: on a run that completes normally, the selected jobs are partitioned
by exact string equality of the target url — the processed groups carry
pairwise-distinct urls, their job lists joined are a permutation of the
selected jobs, every job sits in the group of its own to_repo — and the
number of groups, each performing exactly one clone of its url, equals the
number of distinct to_repo values, whatever the total job count. -/
theorem C6_grouping (net : String → LsRemoteResult) (git : GitCmd → GitOutcome)
    (rmOk : String → Bool) (uuids : Nat → String)
    (configJobs sel : List MirrorJob) (grs : List GroupResult) (code : Nat)
    (hsel : filterJobs net configJobs = .ok sel)
    (hrun : mainRun net git rmOk uuids configJobs = .finished grs code) :
    grs.length = (sel.map MirrorJob.to_repo).toFinset.card ∧
    (grs.map (·.repoUrl)).Nodup ∧
    ((grs.map (·.jobs)).flatten).Perm sel ∧
    (∀ gr ∈ grs, ∀ j ∈ gr.jobs, j.to_repo = gr.repoUrl) ∧
    (∀ gr ∈ grs, gr.cloneCmd = cloneCmdFor gr.repoUrl gr.repoPath) := by
  obtain ⟨sel2, hf2, hp2, hp1, hcode⟩ :=
    mainRun_finished_inv net git rmOk uuids configJobs grs code hrun
  rw [hsel] at hf2
  injection hf2 with hss
  subst hss
  have hgj : groupJobs sel =
      pyGroupBy MirrorJob.to_repo (List.insertionSort jobRel sel) := rfl
  have hsort : (List.insertionSort jobRel sel).Pairwise jobRel :=
    List.sorted_insertionSort jobRel sel
  have hperm : (List.insertionSort jobRel sel).Perm sel :=
    List.perm_insertionSort jobRel sel
  have hshape := processGroups_ok_shape net git rmOk uuids (groupJobs sel) 0 hp2
  rw [hp1] at hshape
  have hfst : grs.map (·.repoUrl) = (groupJobs sel).map (·.1) := by
    calc grs.map (·.repoUrl)
        = (grs.map (fun g => (g.repoUrl, g.jobs))).map (·.1) :=
          (List.map_map (fun p : String × List MirrorJob => p.1)
            (fun g : GroupResult => (g.repoUrl, g.jobs)) grs).symm
      _ = (groupJobs sel).map (·.1) := by rw [hshape]
  have hsnd : grs.map (·.jobs) = (groupJobs sel).map (·.2) := by
    calc grs.map (·.jobs)
        = (grs.map (fun g => (g.repoUrl, g.jobs))).map (·.2) :=
          (List.map_map (fun p : String × List MirrorJob => p.2)
            (fun g : GroupResult => (g.repoUrl, g.jobs)) grs).symm
      _ = (groupJobs sel).map (·.2) := by rw [hshape]
  have hnodup : ((groupJobs sel).map (·.1)).Nodup := by
    rw [hgj]
    exact pyGroupBy_fst_nodup (List.insertionSort jobRel sel) hsort
  have htofin : ((groupJobs sel).map (·.1)).toFinset
      = (sel.map MirrorJob.to_repo).toFinset := by
    ext k
    simp only [List.mem_toFinset]
    constructor
    · intro hk
      rw [hgj] at hk
      obtain ⟨j, hj, hkey⟩ :=
        pyGroupBy_fst_mem MirrorJob.to_repo (List.insertionSort jobRel sel) k hk
      exact List.mem_map.mpr ⟨j, hperm.subset hj, hkey⟩
    · intro hk
      obtain ⟨j, hj, hkey⟩ := List.mem_map.mp hk
      rw [hgj, ← hkey]
      exact pyGroupBy_mem_fst MirrorJob.to_repo (List.insertionSort jobRel sel)
        j (hperm.symm.subset hj)
  refine ⟨?_, ?_, ?_, ?_, ?_⟩
  · have hlen1 : grs.length = (groupJobs sel).length := by
      have hl := congrArg List.length hshape
      simpa using hl
    rw [hlen1, ← htofin, List.toFinset_card_of_nodup hnodup, List.length_map]
  · rw [hfst]
    exact hnodup
  · rw [hsnd, hgj, pyGroupBy_flatten]
    exact hperm
  · intro gr hmem j hj
    have hpair : (gr.repoUrl, gr.jobs) ∈ groupJobs sel := by
      rw [← hshape]
      exact List.mem_map_of_mem (fun g => (g.repoUrl, g.jobs)) hmem
    rw [hgj] at hpair
    exact (pyGroupBy_group_elems MirrorJob.to_repo
      (List.insertionSort jobRel sel) (gr.repoUrl, gr.jobs) hpair).2 j hj
  · intro gr hmem
    rw [← hp1] at hmem
    exact (processGroups_mem net git rmOk uuids (groupJobs sel) 0 gr hmem).1

def wJobA : MirrorJob := ⟨"a", "srcA", "main", "tgtA", "main"⟩

def wJobB : MirrorJob := ⟨"b", "srcB", "main", "tgtB", "main"⟩

def wNet6 : String → LsRemoteResult :=
  fun u => if u == "srcA" || u == "srcB" then .ok "h1\trefs/heads/main\n"
    else .ok ""

def wGrA : GroupResult :=
  ⟨"tgtA", "tgta-u0", [wJobA], cloneCmdFor "tgtA" "tgta-u0",
    configCmdFor "tgta-u0", syncInvocations wJobA "tgta-u0",
    [("a", true)], false, true, true⟩

def wGrB : GroupResult :=
  ⟨"tgtB", "tgtb-u0", [wJobB], cloneCmdFor "tgtB" "tgtb-u0",
    configCmdFor "tgtb-u0", syncInvocations wJobB "tgtb-u0",
    [("b", true)], false, true, true⟩

theorem C6_witness :
    [wGrA, wGrB].length = ([wJobA, wJobB].map MirrorJob.to_repo).toFinset.card ∧
    ([wGrA, wGrB].map (·.repoUrl)).Nodup ∧
    (([wGrA, wGrB].map (·.jobs)).flatten).Perm [wJobA, wJobB] ∧
    (∀ gr ∈ [wGrA, wGrB], ∀ j ∈ gr.jobs, j.to_repo = gr.repoUrl) ∧
    (∀ gr ∈ [wGrA, wGrB], gr.cloneCmd = cloneCmdFor gr.repoUrl gr.repoPath) :=
  C6_grouping wNet6 wGitOk wRmTrue wUuids [wJobA, wJobB] [wJobA, wJobB]
    [wGrA, wGrB] 0 rfl rfl
